import Mathlib

/-!
Shallow embedding of `bee.go`, a bounded-concurrency task pool.

The Go source (package `bee`) is:

  func New(ctx context.Context, size int) *Pool {
      done := make(chan struct{})
      closeDone := sync.OnceFunc(func() { close(done) })
      return &Pool{ctx: ctx, work: make(chan struct{}, size), done: done, closeDone: closeDone}
  }

  func (p *Pool) RunWithContextAndIndex(f func(ctx context.Context, index int64)) bool {
      select {
      case <-p.ctx.Done(): p.closeDone(); return false
      case <-p.done:       return false
      case p.work <- struct{}{}:
          p.running.Add(1)
          go func() {
              defer func() { <-p.work; p.running.Add(-1); p.worked.Add(1) }()
              defer recover()
              f(p.ctx, p.index.Add(1))
          }()
          return true
      }
  }

  func (p *Pool) Exit() { p.closeDone() }
  func (p *Pool) Worked() int64 { return p.worked.Load() }
  func (p *Pool) Running() int32 { return p.running.Load() }

`Run` and `RunWithContext` delegate to `RunWithContextAndIndex` with an
adapted body, so all three submission entry points share the one select above.

The embedding is a labeled transition system over an explicit `Pool` state.
Concurrency is modelled by fine-grained interleaving:

  * the channel `p.work` of capacity `size` becomes the counter `work`
    (number of occupied slots); `p.work <- struct{}{}` is enabled iff
    `work < size`, `<-p.work` decrements `work`;
  * the one-shot `done` channel plus `sync.OnceFunc(close(done))` become the
    boolean `doneClosed`; `closeDone` sets it (idempotently);
  * the external context becomes the boolean `ctxCancelled`; the environment
    may fire it at any time (label `cancelCtx`);
  * a submission call is one of three labels, one per `select` branch, each
    guarded by that branch's readiness; Go's `select` chooses among ready
    branches nondeterministically (pseudo-randomly), and blocks when none is
    ready, so a submission step exists exactly when some branch is ready;
  * each dispatched goroutine is a `Phase` stored (in dispatch order) in
    `tasks`; its visible actions are separate labels: `startBody` evaluates
    `p.index.Add(1)` and enters the body `f`; `endBody` covers the body
    exiting — returning normally or starting to panic — and the first
    deferred action `<-p.work`; `decRunning` and `incWorked` are the
    remaining deferred actions, one label each, since `running`, `worked` and
    the channel are touched by separate instructions in the source;
  * `defer recover()` does NOT stop a panic: recover stops a panicking
    sequence only when executed inside a deferred function, and here recover
    is the deferred call itself, so it returns nil.  When the body panics,
    the deferred calls still run, last-registered first: the ineffective
    `recover()`, then the cleanup closure (`<-p.work`, `running.Add(-1)`,
    `worked.Add(1)`).  After the deferred chain of the panicking goroutine
    completes, the panic resumes and terminates the entire process.  The
    `fault` flag on a task's later phases records a panicking body; a state
    with some task in `finished _ true` is `crashed` — the process is gone —
    and no label is enabled in it.

Go's `make(chan struct{}, size)` panics at run time when `size` is negative,
so `New` takes the capacity as an `Int` and returns `none` in that case.
-/

namespace Bee

/-- Lifecycle of one dispatched goroutine.  `idx` is the value the goroutine
obtained from `p.index.Add(1)`; `fault` records whether the body panicked.
The deferred cleanup runs either way (deferred calls execute while
panicking, and the `defer recover()` between them is a no-op), but once a
panicking goroutine's deferred chain completes — phase `finished idx true` —
the panic resumes and the whole process terminates. -/
inductive Phase where
  | spawned : Phase
  | bodyRunning : Int → Phase
  | slotReleased : Int → Bool → Phase
  | runningDec : Int → Bool → Phase
  | finished : Int → Bool → Phase
  deriving DecidableEq, Repr

/-- State of one `Pool` together with its in-flight goroutines.  `work` is the
occupancy of the buffered channel `p.work`; `tasks` lists the dispatched
goroutines in dispatch (slot-reservation) order. -/
structure Pool where
  size : Nat
  ctxCancelled : Bool
  doneClosed : Bool
  work : Nat
  running : Int
  worked : Int
  index : Int
  tasks : List Phase
  deriving DecidableEq, Repr

/-- `New(ctx, size)`: zero counters, empty channel, open `done` signal.
`c` is whether the supplied context is already cancelled.  A negative `size`
makes `make(chan struct{}, size)` panic at run time, modelled as `none`. -/
def New (c : Bool) (size : Int) : Option Pool :=
  if size < 0 then none
  else some { size := size.toNat, ctxCancelled := c, doneClosed := false,
              work := 0, running := 0, worked := 0, index := 0, tasks := [] }

/-- `closeDone`, i.e. `sync.OnceFunc(func() { close(done) })`: closes the
`done` channel at most once; as a state update it just sets the flag. -/
def closeDone (p : Pool) : Pool := { p with doneClosed := true }

/-- `(*Pool).Exit()`: `p.closeDone()`. -/
def Exit (p : Pool) : Pool := closeDone p

/-- `(*Pool).Worked()`: `p.worked.Load()`. -/
def Worked (p : Pool) : Int := p.worked

/-- `(*Pool).Running()`: `p.running.Load()`. -/
def Running (p : Pool) : Int := p.running

/-- Visible atomic actions.  The three `submit` labels are the three branches
of the `select` in `RunWithContextAndIndex` (`Run` and `RunWithContext` route
through the same select); the `tid`-indexed labels are actions of dispatched
goroutine number `tid` (its position in `tasks`); `cancelCtx` is the
environment firing the external cancellation source. -/
inductive Label where
  | cancelCtx : Label
  | submitCancelled : Label
  | submitClosed : Label
  | submitAccepted : Label
  | exitCall : Label
  | startBody : Nat → Label
  | endBody : Nat → Bool → Label
  | decRunning : Nat → Label
  | incWorked : Nat → Label
  deriving DecidableEq, Repr

/-- Return value delivered to the submitting caller by a submission label:
the `select` branches return `false`, `false`, `true` respectively. -/
def labelRet : Label → Option Bool
  | .submitCancelled => some false
  | .submitClosed => some false
  | .submitAccepted => some true
  | _ => none

/-- A goroutine whose body panicked and whose deferred chain has completed:
`defer recover()` did not stop the panic (recover is the deferred call, not
a call made inside a deferred function, so it returns nil), and with no
deferred call left the panic resumes. -/
def isFatal : Phase → Bool
  | .finished _ true => true
  | _ => false

/-- The process has been terminated by an unrecovered panic: some faulting
goroutine has finished its deferred cleanup and its panic resumed, killing
the whole program.  No further action of any goroutine occurs. -/
def crashed (p : Pool) : Bool := p.tasks.any isFatal

/-- Effect of one instruction of the still-running process.  `none` means
the label is not enabled in `p` (its guard, read off the source, does not
hold). -/
def liveStep (p : Pool) : Label → Option Pool
  | .cancelCtx => some { p with ctxCancelled := true }
  | .submitCancelled =>
      if p.ctxCancelled then some (closeDone p) else none
  | .submitClosed =>
      if p.doneClosed then some p else none
  | .submitAccepted =>
      if p.work < p.size then
        some { p with work := p.work + 1, running := p.running + 1,
                      tasks := p.tasks ++ [Phase.spawned] }
      else none
  | .exitCall => some (Exit p)
  | .startBody tid =>
      match p.tasks.get? tid with
      | some Phase.spawned =>
          some { p with index := p.index + 1,
                        tasks := p.tasks.set tid (Phase.bodyRunning (p.index + 1)) }
      | _ => none
  | .endBody tid fault =>
      match p.tasks.get? tid with
      | some (Phase.bodyRunning idx) =>
          some { p with work := p.work - 1,
                        tasks := p.tasks.set tid (Phase.slotReleased idx fault) }
      | _ => none
  | .decRunning tid =>
      match p.tasks.get? tid with
      | some (Phase.slotReleased idx fault) =>
          some { p with running := p.running - 1,
                        tasks := p.tasks.set tid (Phase.runningDec idx fault) }
      | _ => none
  | .incWorked tid =>
      match p.tasks.get? tid with
      | some (Phase.runningDec idx fault) =>
          some { p with worked := p.worked + 1,
                        tasks := p.tasks.set tid (Phase.finished idx fault) }
      | _ => none

/-- One interleaved step of the system.  Once an unrecovered panic has
terminated the process (`crashed`), nothing happens any more; otherwise the
labelled instruction executes.  Note that a faulting task's `incWorked`
completes its deferred chain, after which the state is `crashed`. -/
def stepFn (p : Pool) (l : Label) : Option Pool :=
  if crashed p then none else liveStep p l

/-- Run a list of labels from a state; fails if any label is not enabled. -/
def execTrace (p : Pool) : List Label → Option Pool
  | [] => some p
  | l :: ls =>
      match stepFn p l with
      | some q => execTrace q ls
      | none => none

/-- `New` followed by a trace; convenient for concrete scenarios. -/
def newExec (c : Bool) (size : Int) (ls : List Label) : Option Pool :=
  (New c size).bind fun p => execTrace p ls

/-- Reachability of a pool state from another by some interleaving. -/
def Reachable (p q : Pool) : Prop := ∃ ls : List Label, execTrace p ls = some q

/-- Phases during which the goroutine still occupies a slot of `p.work`. -/
def holdsSlot : Phase → Bool
  | .spawned => true
  | .bodyRunning _ => true
  | _ => false

/-- Phases counted by `running`: incremented at dispatch, decremented by
`p.running.Add(-1)` in the deferred cleanup. -/
def countsRunning : Phase → Bool
  | .spawned => true
  | .bodyRunning _ => true
  | .slotReleased _ _ => true
  | _ => false

/-- Goroutines whose deferred `p.worked.Add(1)` has executed. -/
def isFinished : Phase → Bool
  | .finished _ _ => true
  | _ => false

/-- The sequence index a goroutine observed, once `p.index.Add(1)` ran. -/
def idxOf : Phase → Option Int
  | .spawned => none
  | .bodyRunning i => some i
  | .slotReleased i _ => some i
  | .runningDec i _ => some i
  | .finished i _ => some i

/-- Number of tasks whose phase satisfies `f`. -/
def countPhase (f : Phase → Bool) (p : Pool) : Nat := p.tasks.countP f

/-- The indices assigned so far, in dispatch order of their tasks. -/
def assignedIndices (p : Pool) : List Int := p.tasks.filterMap idxOf

/-- Goroutines that finished their cleanup after a normal (non-panicking)
body. -/
def isFinishedOk : Phase → Bool
  | .finished _ false => true
  | _ => false

/-- A freshly constructed pool of capacity `n` under an uncancelled context. -/
def samplePool (n : Nat) : Pool :=
  { size := n, ctxCancelled := false, doneClosed := false,
    work := 0, running := 0, worked := 0, index := 0, tasks := [] }

/-- Five tasks submitted sequentially from one caller with ample capacity,
each task body starting before the next submission. -/
def run5Trace : List Label :=
  [Label.submitAccepted, Label.startBody 0, Label.submitAccepted, Label.startBody 1,
   Label.submitAccepted, Label.startBody 2, Label.submitAccepted, Label.startBody 3,
   Label.submitAccepted, Label.startBody 4]

/-- The pool reached from `samplePool 8` by `run5Trace`. -/
def pool5 : Pool :=
  { size := 8, ctxCancelled := false, doneClosed := false,
    work := 5, running := 5, worked := 0, index := 5,
    tasks := [Phase.bodyRunning 1, Phase.bodyRunning 2, Phase.bodyRunning 3,
              Phase.bodyRunning 4, Phase.bodyRunning 5] }

/-- A capacity-1 pool with one task mid-body, reached from `samplePool 1`. -/
def poolBody1 : Pool :=
  { size := 1, ctxCancelled := false, doneClosed := false,
    work := 1, running := 1, worked := 0, index := 1,
    tasks := [Phase.bodyRunning 1] }

/-- A pool whose external context has fired. -/
def poolCancelled : Pool :=
  { size := 1, ctxCancelled := true, doneClosed := false,
    work := 0, running := 0, worked := 0, index := 0, tasks := [] }

/-- A pool whose internal `done` signal has fired. -/
def poolClosed : Pool :=
  { size := 1, ctxCancelled := false, doneClosed := true,
    work := 0, running := 0, worked := 0, index := 0, tasks := [] }

/-- The claim's scenario of three sequentially accepted tasks with the first
one deliberately faulting, each run to completion.  This schedule is
infeasible: the first task's unrecovered panic terminates the process as
soon as its cleanup completes, before the second submission. -/
def run7Trace : List Label :=
  [Label.submitAccepted, Label.startBody 0, Label.endBody 0 true,
   Label.decRunning 0, Label.incWorked 0,
   Label.submitAccepted, Label.startBody 1, Label.endBody 1 false,
   Label.decRunning 1, Label.incWorked 1,
   Label.submitAccepted, Label.startBody 2, Label.endBody 2 false,
   Label.decRunning 2, Label.incWorked 2]

/-- Three sequentially accepted tasks, none faulting, each run to
completion. -/
def run7CleanTrace : List Label :=
  [Label.submitAccepted, Label.startBody 0, Label.endBody 0 false,
   Label.decRunning 0, Label.incWorked 0,
   Label.submitAccepted, Label.startBody 1, Label.endBody 1 false,
   Label.decRunning 1, Label.incWorked 1,
   Label.submitAccepted, Label.startBody 2, Label.endBody 2 false,
   Label.decRunning 2, Label.incWorked 2]

/-- The pool reached from `samplePool 2` by `run7CleanTrace`. -/
def pool7 : Pool :=
  { size := 2, ctxCancelled := false, doneClosed := false,
    work := 0, running := 0, worked := 3, index := 3,
    tasks := [Phase.finished 1 false, Phase.finished 2 false, Phase.finished 3 false] }

/-- One accepted task whose body panics, run through its deferred cleanup;
the final step completes the panicking goroutine's deferred chain, so the
resulting state is crashed. -/
def faultTrace : List Label :=
  [Label.submitAccepted, Label.startBody 0, Label.endBody 0 true,
   Label.decRunning 0, Label.incWorked 0]

/-- The same single-task run with a normally returning body. -/
def okTrace : List Label :=
  [Label.submitAccepted, Label.startBody 0, Label.endBody 0 false,
   Label.decRunning 0, Label.incWorked 0]

/-! Auxiliary list lemmas used by the invariant proofs. -/

theorem get_set_self {α : Type _} :
    ∀ (l : List α) (i : Nat) (a b : α), l.get? i = some a →
      (l.set i b).get? i = some b
  | [], i, _, _, h => by cases i <;> simp [List.get?] at h
  | _ :: _, 0, _, _, _ => by simp [List.set, List.get?]
  | x :: xs, i + 1, a, b, h => by
      simpa [List.set, List.get?] using get_set_self xs i a b h

theorem get_set_other {α : Type _} :
    ∀ (l : List α) (i j : Nat) (b : α), i ≠ j →
      (l.set i b).get? j = l.get? j
  | [], _, _, _, _ => by simp
  | _ :: _, 0, 0, _, hne => absurd rfl hne
  | _ :: _, 0, _ + 1, _, _ => by simp [List.set, List.get?]
  | _ :: _, _ + 1, 0, _, _ => by simp [List.set, List.get?]
  | x :: xs, i + 1, j + 1, b, hne => by
      have hne2 : i ≠ j := fun hh => hne (by rw [hh])
      simpa [List.set, List.get?] using get_set_other xs i j b hne2

theorem get_append_single {α : Type _} :
    ∀ (l : List α) (a : α) (i : Nat) (ph : α), (l ++ [a]).get? i = some ph →
      l.get? i = some ph ∨ ph = a
  | [], a, i, ph, h => by
      cases i with
      | zero => simp [List.get?] at h; exact Or.inr h.symm
      | succ n => simp [List.get?] at h
  | x :: xs, a, 0, ph, h => by
      simp [List.get?] at h; exact Or.inl (by simp [List.get?, h])
  | x :: xs, a, i + 1, ph, h => by
      simpa [List.get?] using get_append_single xs a i ph (by simpa [List.get?] using h)

theorem countP_set_add (f : Phase → Bool) :
    ∀ (l : List Phase) (i : Nat) (a b : Phase), l.get? i = some a →
      (l.set i b).countP f + (if f a then 1 else 0)
        = l.countP f + (if f b then 1 else 0)
  | [], i, _, _, h => by cases i <;> simp [List.get?] at h
  | x :: xs, 0, a, b, h => by
      simp [List.get?] at h
      subst h
      simp [List.set, List.countP_cons]
      omega
  | x :: xs, i + 1, a, b, h => by
      have ih := countP_set_add f xs i a b (by simpa [List.get?] using h)
      simp only [List.set, List.countP_cons]
      omega

/-- Exhaustive description of the possible steps: a successful `stepFn`
application happens only in a non-crashed state and is one of the nine
action shapes read off the source. -/
theorem step_cases {p q : Pool} {l : Label} (h : stepFn p l = some q) :
    crashed p = false ∧
    ((l = .cancelCtx ∧ q = { p with ctxCancelled := true }) ∨
    (l = .submitCancelled ∧ p.ctxCancelled = true ∧ q = closeDone p) ∨
    (l = .submitClosed ∧ p.doneClosed = true ∧ q = p) ∨
    (l = .submitAccepted ∧ p.work < p.size ∧
      q = { p with work := p.work + 1, running := p.running + 1,
                   tasks := p.tasks ++ [Phase.spawned] }) ∨
    (l = .exitCall ∧ q = Exit p) ∨
    (∃ tid, l = .startBody tid ∧ p.tasks.get? tid = some Phase.spawned ∧
      q = { p with index := p.index + 1,
                   tasks := p.tasks.set tid (Phase.bodyRunning (p.index + 1)) }) ∨
    (∃ tid fault idx, l = .endBody tid fault ∧
      p.tasks.get? tid = some (Phase.bodyRunning idx) ∧
      q = { p with work := p.work - 1,
                   tasks := p.tasks.set tid (Phase.slotReleased idx fault) }) ∨
    (∃ tid idx fault, l = .decRunning tid ∧
      p.tasks.get? tid = some (Phase.slotReleased idx fault) ∧
      q = { p with running := p.running - 1,
                   tasks := p.tasks.set tid (Phase.runningDec idx fault) }) ∨
    (∃ tid idx fault, l = .incWorked tid ∧
      p.tasks.get? tid = some (Phase.runningDec idx fault) ∧
      q = { p with worked := p.worked + 1,
                   tasks := p.tasks.set tid (Phase.finished idx fault) })) := by
  unfold stepFn at h
  cases hcb : crashed p with
  | true =>
      rw [if_pos hcb] at h
      exact absurd h (by simp)
  | false =>
      rw [if_neg (by simp [hcb])] at h
      refine ⟨rfl, ?_⟩
      cases l with
        | cancelCtx =>
            simp only [liveStep] at h
            injection h with h
            exact Or.inl ⟨rfl, h.symm⟩
        | submitCancelled =>
            simp only [liveStep] at h
            by_cases hc : p.ctxCancelled = true
            · rw [if_pos hc] at h
              injection h with h
              exact Or.inr (Or.inl ⟨rfl, hc, h.symm⟩)
            · rw [if_neg hc] at h
              exact absurd h (by simp)
        | submitClosed =>
            simp only [liveStep] at h
            by_cases hc : p.doneClosed = true
            · rw [if_pos hc] at h
              injection h with h
              exact Or.inr (Or.inr (Or.inl ⟨rfl, hc, h.symm⟩))
            · rw [if_neg hc] at h
              exact absurd h (by simp)
        | submitAccepted =>
            simp only [liveStep] at h
            by_cases hlt : p.work < p.size
            · rw [if_pos hlt] at h
              injection h with h
              exact Or.inr (Or.inr (Or.inr (Or.inl ⟨rfl, hlt, h.symm⟩)))
            · rw [if_neg hlt] at h
              exact absurd h (by simp)
        | exitCall =>
            simp only [liveStep] at h
            injection h with h
            exact Or.inr (Or.inr (Or.inr (Or.inr (Or.inl ⟨rfl, h.symm⟩))))
        | startBody tid =>
            simp only [liveStep] at h
            rcases hget : p.tasks.get? tid with _ | ph
            · rw [hget] at h
              simp at h
            · rw [hget] at h
              cases ph with
              | spawned =>
                  injection h with h
                  exact Or.inr (Or.inr (Or.inr (Or.inr (Or.inr (Or.inl
                    ⟨tid, rfl, hget, h.symm⟩)))))
              | bodyRunning i => simp at h
              | slotReleased i b => simp at h
              | runningDec i b => simp at h
              | finished i b => simp at h
        | endBody tid fault =>
            simp only [liveStep] at h
            rcases hget : p.tasks.get? tid with _ | ph
            · rw [hget] at h
              simp at h
            · rw [hget] at h
              cases ph with
              | bodyRunning idx =>
                  injection h with h
                  exact Or.inr (Or.inr (Or.inr (Or.inr (Or.inr (Or.inr (Or.inl
                    ⟨tid, fault, idx, rfl, hget, h.symm⟩))))))
              | spawned => simp at h
              | slotReleased i b => simp at h
              | runningDec i b => simp at h
              | finished i b => simp at h
        | decRunning tid =>
            simp only [liveStep] at h
            rcases hget : p.tasks.get? tid with _ | ph
            · rw [hget] at h
              simp at h
            · rw [hget] at h
              cases ph with
              | slotReleased idx b =>
                  injection h with h
                  exact Or.inr (Or.inr (Or.inr (Or.inr (Or.inr (Or.inr (Or.inr (Or.inl
                    ⟨tid, idx, b, rfl, hget, h.symm⟩)))))))
              | spawned => simp at h
              | bodyRunning i => simp at h
              | runningDec i b => simp at h
              | finished i b => simp at h
        | incWorked tid =>
            simp only [liveStep] at h
            rcases hget : p.tasks.get? tid with _ | ph
            · rw [hget] at h
              simp at h
            · rw [hget] at h
              cases ph with
              | runningDec idx b =>
                  injection h with h
                  exact Or.inr (Or.inr (Or.inr (Or.inr (Or.inr (Or.inr (Or.inr (Or.inr
                    ⟨tid, idx, b, rfl, hget, h.symm⟩)))))))
              | spawned => simp at h
              | bodyRunning i => simp at h
              | slotReleased i b => simp at h
              | finished i b => simp at h

/-- Every step leaves the channel capacity unchanged: the pool never resizes. -/
theorem size_step {p q : Pool} {l : Label} (h : stepFn p l = some q) : q.size = p.size := by
  rcases (step_cases h).2 with ⟨_, rfl⟩ | ⟨_, _, rfl⟩ | ⟨_, _, rfl⟩ | ⟨_, _, rfl⟩ | ⟨_, rfl⟩ |
    ⟨tid, _, _, rfl⟩ | ⟨tid, fault, idx, _, _, rfl⟩ | ⟨tid, idx, fault, _, _, rfl⟩ |
    ⟨tid, idx, fault, _, _, rfl⟩ <;> rfl

/-- Only the environment firing the external cancellation source (label
`cancelCtx`) ever changes the context's cancellation status; in particular no
internal action of the pool does. -/
theorem ctx_step {p q : Pool} {l : Label} (h : stepFn p l = some q)
    (hl : l ≠ .cancelCtx) : q.ctxCancelled = p.ctxCancelled := by
  rcases (step_cases h).2 with ⟨hc, rfl⟩ | ⟨_, _, rfl⟩ | ⟨_, _, rfl⟩ | ⟨_, _, rfl⟩ | ⟨_, rfl⟩ |
    ⟨tid, _, _, rfl⟩ | ⟨tid, fault, idx, _, _, rfl⟩ | ⟨tid, idx, fault, _, _, rfl⟩ |
    ⟨tid, idx, fault, _, _, rfl⟩
  · exact absurd hc hl
  all_goals rfl

/-! The inductive invariant tying the counters to the task phases. -/

/-- Inductive invariant of the pool: each counter equals the count of task
phases it tracks, the channel occupancy is bounded by its capacity, and the
assigned sequence indices lie in `[1, index]` and are pairwise distinct. -/
structure Inv (p : Pool) : Prop where
  work_eq : p.work = countPhase holdsSlot p
  running_eq : p.running = (countPhase countsRunning p : Int)
  worked_eq : p.worked = (countPhase isFinished p : Int)
  work_le : p.work ≤ p.size
  index_eq : p.index = (countPhase (fun ph => (idxOf ph).isSome) p : Int)
  idx_bounds : ∀ tid ph i, p.tasks.get? tid = some ph → idxOf ph = some i →
    1 ≤ i ∧ i ≤ p.index
  idx_distinct : ∀ t1 t2 ph1 ph2 i, t1 ≠ t2 → p.tasks.get? t1 = some ph1 →
    p.tasks.get? t2 = some ph2 → idxOf ph1 = some i → idxOf ph2 = some i → False

/-- Replacing a task's phase by one carrying the same index leaves the
index-bound part of the invariant intact. -/
theorem bounds_set_same (l : List Phase) (tid : Nat) (oldPh newPh : Phase) (bound : Int)
    (hget : l.get? tid = some oldPh) (hsame : idxOf newPh = idxOf oldPh)
    (hb : ∀ t ph i, l.get? t = some ph → idxOf ph = some i → 1 ≤ i ∧ i ≤ bound) :
    ∀ t ph i, (l.set tid newPh).get? t = some ph → idxOf ph = some i →
      1 ≤ i ∧ i ≤ bound := by
  intro t ph i hget2 hidx
  by_cases he : tid = t
  · subst he
    rw [get_set_self l tid oldPh newPh hget] at hget2
    injection hget2 with hh
    subst hh
    exact hb tid oldPh i hget (by rw [← hsame]; exact hidx)
  · rw [get_set_other l tid t newPh he] at hget2
    exact hb t ph i hget2 hidx

/-- Replacing a task's phase by one carrying the same index preserves
pairwise distinctness of the assigned indices. -/
theorem distinct_set_same (l : List Phase) (tid : Nat) (oldPh newPh : Phase)
    (hget : l.get? tid = some oldPh) (hsame : idxOf newPh = idxOf oldPh)
    (hd : ∀ t1 t2 ph1 ph2 i, t1 ≠ t2 → l.get? t1 = some ph1 → l.get? t2 = some ph2 →
      idxOf ph1 = some i → idxOf ph2 = some i → False) :
    ∀ t1 t2 ph1 ph2 i, t1 ≠ t2 → (l.set tid newPh).get? t1 = some ph1 →
      (l.set tid newPh).get? t2 = some ph2 → idxOf ph1 = some i → idxOf ph2 = some i →
      False := by
  intro t1 t2 ph1 ph2 i hne hget1 hget2 hidx1 hidx2
  by_cases h1 : tid = t1
  · subst h1
    rw [get_set_self l tid oldPh newPh hget] at hget1
    injection hget1 with hh
    subst hh
    rw [get_set_other l tid t2 newPh hne] at hget2
    exact hd tid t2 oldPh ph2 i hne hget hget2 (by rw [← hsame]; exact hidx1) hidx2
  · rw [get_set_other l tid t1 newPh h1] at hget1
    by_cases h2 : tid = t2
    · subst h2
      rw [get_set_self l tid oldPh newPh hget] at hget2
      injection hget2 with hh
      subst hh
      exact hd t1 tid ph1 oldPh i hne hget1 hget hidx1 (by rw [← hsame]; exact hidx2)
    · rw [get_set_other l tid t2 newPh h2] at hget2
      exact hd t1 t2 ph1 ph2 i hne hget1 hget2 hidx1 hidx2

theorem Inv_new {c : Bool} {size : Int} {p : Pool} (h : New c size = some p) : Inv p := by
  unfold New at h
  split at h
  · exact absurd h (by simp)
  · cases h
    exact {
      work_eq := rfl, running_eq := rfl, worked_eq := rfl,
      work_le := Nat.zero_le _, index_eq := rfl,
      idx_bounds := by intro tid ph i hget; cases tid <;> simp [List.get?] at hget,
      idx_distinct := by intro t1 t2 ph1 ph2 i _ hget; cases t1 <;> simp [List.get?] at hget }

theorem Inv_step {p q : Pool} {l : Label} (hInv : Inv p) (h : stepFn p l = some q) :
    Inv q := by
  have hW := hInv.work_eq
  have hR := hInv.running_eq
  have hF := hInv.worked_eq
  have hL := hInv.work_le
  have hI := hInv.index_eq
  simp only [countPhase] at hW hR hF hI
  rcases (step_cases h).2 with ⟨_, rfl⟩ | ⟨_, hc, rfl⟩ | ⟨_, hc, rfl⟩ | ⟨_, hlt, rfl⟩ |
    ⟨_, rfl⟩ | ⟨tid, _, hget, rfl⟩ | ⟨tid, fault, idx, _, hget, rfl⟩ |
    ⟨tid, idx, fault, _, hget, rfl⟩ | ⟨tid, idx, fault, _, hget, rfl⟩
  · exact ⟨hInv.work_eq, hInv.running_eq, hInv.worked_eq, hInv.work_le, hInv.index_eq,
      hInv.idx_bounds, hInv.idx_distinct⟩
  · exact ⟨hInv.work_eq, hInv.running_eq, hInv.worked_eq, hInv.work_le, hInv.index_eq,
      hInv.idx_bounds, hInv.idx_distinct⟩
  · exact hInv
  · have hA1 : (p.tasks ++ [Phase.spawned]).countP holdsSlot
        = p.tasks.countP holdsSlot + 1 := by
      simp [List.countP_append, List.countP_cons, holdsSlot]
    have hA2 : (p.tasks ++ [Phase.spawned]).countP countsRunning
        = p.tasks.countP countsRunning + 1 := by
      simp [List.countP_append, List.countP_cons, countsRunning]
    have hA3 : (p.tasks ++ [Phase.spawned]).countP isFinished
        = p.tasks.countP isFinished := by
      simp [List.countP_append, List.countP_cons, isFinished]
    have hA4 : (p.tasks ++ [Phase.spawned]).countP (fun ph => (idxOf ph).isSome)
        = p.tasks.countP (fun ph => (idxOf ph).isSome) := by
      simp [List.countP_append, List.countP_cons, idxOf]
    refine ⟨?_, ?_, ?_, ?_, ?_, ?_, ?_⟩
    · show p.work + 1 = (p.tasks ++ [Phase.spawned]).countP holdsSlot
      omega
    · show p.running + 1 = ((p.tasks ++ [Phase.spawned]).countP countsRunning : Int)
      omega
    · show p.worked = ((p.tasks ++ [Phase.spawned]).countP isFinished : Int)
      omega
    · show p.work + 1 ≤ p.size
      omega
    · show p.index = ((p.tasks ++ [Phase.spawned]).countP (fun ph => (idxOf ph).isSome) : Int)
      omega
    · intro t ph i hget2 hidx2
      rcases get_append_single p.tasks Phase.spawned t ph hget2 with hold | hnew
      · exact hInv.idx_bounds t ph i hold hidx2
      · subst hnew
        simp [idxOf] at hidx2
    · intro t1 t2 ph1 ph2 i hne h1 h2 hi1 hi2
      rcases get_append_single p.tasks Phase.spawned t1 ph1 h1 with ho1 | hn1
      · rcases get_append_single p.tasks Phase.spawned t2 ph2 h2 with ho2 | hn2
        · exact hInv.idx_distinct t1 t2 ph1 ph2 i hne ho1 ho2 hi1 hi2
        · subst hn2
          simp [idxOf] at hi2
      · subst hn1
        simp [idxOf] at hi1
  · exact ⟨hInv.work_eq, hInv.running_eq, hInv.worked_eq, hInv.work_le, hInv.index_eq,
      hInv.idx_bounds, hInv.idx_distinct⟩
  · have hc1 : (p.tasks.set tid (Phase.bodyRunning (p.index + 1))).countP holdsSlot + 1
        = p.tasks.countP holdsSlot + 1 :=
      countP_set_add holdsSlot p.tasks tid Phase.spawned (Phase.bodyRunning (p.index + 1)) hget
    have hc2 : (p.tasks.set tid (Phase.bodyRunning (p.index + 1))).countP countsRunning + 1
        = p.tasks.countP countsRunning + 1 :=
      countP_set_add countsRunning p.tasks tid Phase.spawned
        (Phase.bodyRunning (p.index + 1)) hget
    have hc3 : (p.tasks.set tid (Phase.bodyRunning (p.index + 1))).countP isFinished + 0
        = p.tasks.countP isFinished + 0 :=
      countP_set_add isFinished p.tasks tid Phase.spawned (Phase.bodyRunning (p.index + 1)) hget
    have hc4 : (p.tasks.set tid (Phase.bodyRunning (p.index + 1))).countP
          (fun ph => (idxOf ph).isSome) + 0
        = p.tasks.countP (fun ph => (idxOf ph).isSome) + 1 :=
      countP_set_add (fun ph => (idxOf ph).isSome) p.tasks tid Phase.spawned
        (Phase.bodyRunning (p.index + 1)) hget
    refine ⟨?_, ?_, ?_, ?_, ?_, ?_, ?_⟩
    · show p.work = (p.tasks.set tid (Phase.bodyRunning (p.index + 1))).countP holdsSlot
      omega
    · show p.running
        = ((p.tasks.set tid (Phase.bodyRunning (p.index + 1))).countP countsRunning : Int)
      omega
    · show p.worked
        = ((p.tasks.set tid (Phase.bodyRunning (p.index + 1))).countP isFinished : Int)
      omega
    · show p.work ≤ p.size
      exact hL
    · show p.index + 1 = ((p.tasks.set tid (Phase.bodyRunning (p.index + 1))).countP
        (fun ph => (idxOf ph).isSome) : Int)
      omega
    · intro t ph i hget2 hidx2
      show 1 ≤ i ∧ i ≤ p.index + 1
      by_cases he : tid = t
      · subst he
        rw [get_set_self p.tasks tid Phase.spawned (Phase.bodyRunning (p.index + 1)) hget]
          at hget2
        injection hget2 with hh
        subst hh
        simp only [idxOf, Option.some.injEq] at hidx2
        omega
      · rw [get_set_other p.tasks tid t (Phase.bodyRunning (p.index + 1)) he] at hget2
        have := hInv.idx_bounds t ph i hget2 hidx2
        omega
    · intro t1 t2 ph1 ph2 i hne h1 h2 hi1 hi2
      by_cases e1 : tid = t1
      · subst e1
        rw [get_set_self p.tasks tid Phase.spawned (Phase.bodyRunning (p.index + 1)) hget]
          at h1
        injection h1 with hh
        subst hh
        simp only [idxOf, Option.some.injEq] at hi1
        rw [get_set_other p.tasks tid t2 (Phase.bodyRunning (p.index + 1)) hne] at h2
        have hb := hInv.idx_bounds t2 ph2 i h2 hi2
        omega
      · rw [get_set_other p.tasks tid t1 (Phase.bodyRunning (p.index + 1)) e1] at h1
        by_cases e2 : tid = t2
        · subst e2
          rw [get_set_self p.tasks tid Phase.spawned (Phase.bodyRunning (p.index + 1)) hget]
            at h2
          injection h2 with hh
          subst hh
          simp only [idxOf, Option.some.injEq] at hi2
          have hb := hInv.idx_bounds t1 ph1 i h1 hi1
          omega
        · rw [get_set_other p.tasks tid t2 (Phase.bodyRunning (p.index + 1)) e2] at h2
          exact hInv.idx_distinct t1 t2 ph1 ph2 i hne h1 h2 hi1 hi2
  · have hc1 : (p.tasks.set tid (Phase.slotReleased idx fault)).countP holdsSlot + 1
        = p.tasks.countP holdsSlot + 0 :=
      countP_set_add holdsSlot p.tasks tid (Phase.bodyRunning idx)
        (Phase.slotReleased idx fault) hget
    have hc2 : (p.tasks.set tid (Phase.slotReleased idx fault)).countP countsRunning + 1
        = p.tasks.countP countsRunning + 1 :=
      countP_set_add countsRunning p.tasks tid (Phase.bodyRunning idx)
        (Phase.slotReleased idx fault) hget
    have hc3 : (p.tasks.set tid (Phase.slotReleased idx fault)).countP isFinished + 0
        = p.tasks.countP isFinished + 0 :=
      countP_set_add isFinished p.tasks tid (Phase.bodyRunning idx)
        (Phase.slotReleased idx fault) hget
    have hc4 : (p.tasks.set tid (Phase.slotReleased idx fault)).countP
          (fun ph => (idxOf ph).isSome) + 1
        = p.tasks.countP (fun ph => (idxOf ph).isSome) + 1 :=
      countP_set_add (fun ph => (idxOf ph).isSome) p.tasks tid
        (Phase.bodyRunning idx) (Phase.slotReleased idx fault) hget
    refine ⟨?_, ?_, ?_, ?_, ?_, ?_, ?_⟩
    · show p.work - 1 = (p.tasks.set tid (Phase.slotReleased idx fault)).countP holdsSlot
      omega
    · show p.running
        = ((p.tasks.set tid (Phase.slotReleased idx fault)).countP countsRunning : Int)
      omega
    · show p.worked
        = ((p.tasks.set tid (Phase.slotReleased idx fault)).countP isFinished : Int)
      omega
    · show p.work - 1 ≤ p.size
      omega
    · show p.index = ((p.tasks.set tid (Phase.slotReleased idx fault)).countP
        (fun ph => (idxOf ph).isSome) : Int)
      omega
    · exact bounds_set_same p.tasks tid (Phase.bodyRunning idx)
        (Phase.slotReleased idx fault) p.index hget (by simp [idxOf]) hInv.idx_bounds
    · exact distinct_set_same p.tasks tid (Phase.bodyRunning idx)
        (Phase.slotReleased idx fault) hget (by simp [idxOf]) hInv.idx_distinct
  · have hc1 : (p.tasks.set tid (Phase.runningDec idx fault)).countP holdsSlot + 0
        = p.tasks.countP holdsSlot + 0 :=
      countP_set_add holdsSlot p.tasks tid (Phase.slotReleased idx fault)
        (Phase.runningDec idx fault) hget
    have hc2 : (p.tasks.set tid (Phase.runningDec idx fault)).countP countsRunning + 1
        = p.tasks.countP countsRunning + 0 :=
      countP_set_add countsRunning p.tasks tid (Phase.slotReleased idx fault)
        (Phase.runningDec idx fault) hget
    have hc3 : (p.tasks.set tid (Phase.runningDec idx fault)).countP isFinished + 0
        = p.tasks.countP isFinished + 0 :=
      countP_set_add isFinished p.tasks tid (Phase.slotReleased idx fault)
        (Phase.runningDec idx fault) hget
    have hc4 : (p.tasks.set tid (Phase.runningDec idx fault)).countP
          (fun ph => (idxOf ph).isSome) + 1
        = p.tasks.countP (fun ph => (idxOf ph).isSome) + 1 :=
      countP_set_add (fun ph => (idxOf ph).isSome) p.tasks tid
        (Phase.slotReleased idx fault) (Phase.runningDec idx fault) hget
    refine ⟨?_, ?_, ?_, ?_, ?_, ?_, ?_⟩
    · show p.work = (p.tasks.set tid (Phase.runningDec idx fault)).countP holdsSlot
      omega
    · show p.running - 1
        = ((p.tasks.set tid (Phase.runningDec idx fault)).countP countsRunning : Int)
      omega
    · show p.worked
        = ((p.tasks.set tid (Phase.runningDec idx fault)).countP isFinished : Int)
      omega
    · show p.work ≤ p.size
      exact hL
    · show p.index = ((p.tasks.set tid (Phase.runningDec idx fault)).countP
        (fun ph => (idxOf ph).isSome) : Int)
      omega
    · exact bounds_set_same p.tasks tid (Phase.slotReleased idx fault)
        (Phase.runningDec idx fault) p.index hget (by simp [idxOf]) hInv.idx_bounds
    · exact distinct_set_same p.tasks tid (Phase.slotReleased idx fault)
        (Phase.runningDec idx fault) hget (by simp [idxOf]) hInv.idx_distinct
  · have hc1 : (p.tasks.set tid (Phase.finished idx fault)).countP holdsSlot + 0
        = p.tasks.countP holdsSlot + 0 :=
      countP_set_add holdsSlot p.tasks tid (Phase.runningDec idx fault)
        (Phase.finished idx fault) hget
    have hc2 : (p.tasks.set tid (Phase.finished idx fault)).countP countsRunning + 0
        = p.tasks.countP countsRunning + 0 :=
      countP_set_add countsRunning p.tasks tid (Phase.runningDec idx fault)
        (Phase.finished idx fault) hget
    have hc3 : (p.tasks.set tid (Phase.finished idx fault)).countP isFinished + 0
        = p.tasks.countP isFinished + 1 :=
      countP_set_add isFinished p.tasks tid (Phase.runningDec idx fault)
        (Phase.finished idx fault) hget
    have hc4 : (p.tasks.set tid (Phase.finished idx fault)).countP
          (fun ph => (idxOf ph).isSome) + 1
        = p.tasks.countP (fun ph => (idxOf ph).isSome) + 1 :=
      countP_set_add (fun ph => (idxOf ph).isSome) p.tasks tid
        (Phase.runningDec idx fault) (Phase.finished idx fault) hget
    refine ⟨?_, ?_, ?_, ?_, ?_, ?_, ?_⟩
    · show p.work = (p.tasks.set tid (Phase.finished idx fault)).countP holdsSlot
      omega
    · show p.running
        = ((p.tasks.set tid (Phase.finished idx fault)).countP countsRunning : Int)
      omega
    · show p.worked + 1
        = ((p.tasks.set tid (Phase.finished idx fault)).countP isFinished : Int)
      omega
    · show p.work ≤ p.size
      exact hL
    · show p.index = ((p.tasks.set tid (Phase.finished idx fault)).countP
        (fun ph => (idxOf ph).isSome) : Int)
      omega
    · exact bounds_set_same p.tasks tid (Phase.runningDec idx fault)
        (Phase.finished idx fault) p.index hget (by simp [idxOf]) hInv.idx_bounds
    · exact distinct_set_same p.tasks tid (Phase.runningDec idx fault)
        (Phase.finished idx fault) hget (by simp [idxOf]) hInv.idx_distinct

theorem Inv_exec :
    ∀ (ls : List Label) {p q : Pool}, Inv p → execTrace p ls = some q → Inv q
  | [], p, q, hi, h => by
      simp only [execTrace, Option.some.injEq] at h
      exact h ▸ hi
  | l :: ls, p, q, hi, h => by
      simp only [execTrace] at h
      rcases hstep : stepFn p l with _ | r
      · rw [hstep] at h
        exact absurd h (by simp)
      · rw [hstep] at h
        exact Inv_exec ls (Inv_step hi hstep) h

theorem Inv_reachable {p q : Pool} (hi : Inv p) (hr : Reachable p q) : Inv q := by
  rcases hr with ⟨ls, h⟩
  exact Inv_exec ls hi h

theorem size_exec :
    ∀ (ls : List Label) {p q : Pool}, execTrace p ls = some q → q.size = p.size
  | [], p, q, h => by
      simp only [execTrace, Option.some.injEq] at h
      exact h ▸ rfl
  | l :: ls, p, q, h => by
      simp only [execTrace] at h
      rcases hstep : stepFn p l with _ | r
      · rw [hstep] at h
        exact absurd h (by simp)
      · rw [hstep] at h
        rw [size_exec ls h, size_step hstep]

/-- C1: the claim states that once the closed signal has fired, every
subsequent submission returns `false` and dispatches no task, regardless of
slot availability.  The code violates this: after `Exit()` on a capacity-1
pool, the `p.work <- struct{}{}` branch of the `select` is still ready, and
Go's `select` picks pseudo-randomly among all ready branches, so the
submission may take the accepted branch — here, from `New(ctx, 1)` followed
by `Exit()`, a submission step returning `true` and dispatching a task is
enabled even though `done` is closed. -/
theorem C1_submission_admitted_after_close :
    (newExec false 1 [Label.exitCall, Label.submitAccepted]).map
        (fun p => (p.doneClosed, p.tasks.length, Running p)) = some (true, 1, 1) ∧
    labelRet Label.submitAccepted = some true :=
  ⟨rfl, rfl⟩

/-- C2 counterexample: two tasks dispatched (in list positions 0 then 1)
on a pool with ample capacity; goroutine 1 reaches its `p.index.Add(1)`
before goroutine 0 does, so in dispatch order the observed indices are
`[2, 1]`: the first dispatched task does not observe index 1 and the
indices are not increasing in submission order, refuting the claim as
stated. -/
theorem C2_counterexample_indices_not_submission_order :
    (newExec false 2 [Label.submitAccepted, Label.submitAccepted,
        Label.startBody 1, Label.startBody 0]).map assignedIndices = some [2, 1] :=
  rfl

/-- C2 (amended): a fresh sequence index is assigned by the step that begins
the task body (so before the body runs), taking value `index + 1` — indices
are therefore consecutive in body-start order, pairwise distinct, and lie in
`[1, index]` at every reachable state; they match submission order when each
task's body begins before the next submission, and in that schedule five
sequentially submitted tasks observe `1,2,3,4,5` in order. -/
theorem C2_indices_distinct_start_order (c : Bool) (n : Int) (p0 p : Pool)
    (h0 : New c n = some p0) (hr : Reachable p0 p) :
    (∀ t ph i, p.tasks.get? t = some ph → idxOf ph = some i → 1 ≤ i ∧ i ≤ p.index) ∧
    (∀ t1 t2 ph1 ph2 i, t1 ≠ t2 → p.tasks.get? t1 = some ph1 →
      p.tasks.get? t2 = some ph2 → idxOf ph1 = some i → idxOf ph2 = some i → False) ∧
    (∀ tid q, stepFn p (Label.startBody tid) = some q →
      q.index = p.index + 1 ∧ q.tasks.get? tid = some (Phase.bodyRunning (p.index + 1))) ∧
    (newExec false 8 run5Trace).map assignedIndices = some [1, 2, 3, 4, 5] := by
  have hInv := Inv_reachable (Inv_new h0) hr
  refine ⟨hInv.idx_bounds, hInv.idx_distinct, ?_, rfl⟩
  intro tid q hq
  rcases (step_cases hq).2 with ⟨heq, _⟩ | ⟨heq, _, _⟩ | ⟨heq, _, _⟩ | ⟨heq, _, _⟩ | ⟨heq, _⟩ |
    ⟨tid2, heq, hget, rfl⟩ | ⟨tid2, fl, ix, heq, _, _⟩ | ⟨tid2, ix, fl, heq, _, _⟩ |
    ⟨tid2, ix, fl, heq, _, _⟩
  · exact absurd heq (by simp)
  · exact absurd heq (by simp)
  · exact absurd heq (by simp)
  · exact absurd heq (by simp)
  · exact absurd heq (by simp)
  · injection heq with he
    subst he
    exact ⟨rfl, get_set_self p.tasks tid _ _ hget⟩
  · exact absurd heq (by simp)
  · exact absurd heq (by simp)
  · exact absurd heq (by simp)

/-- C2 witness: the amended theorem applied to the concrete five-task
schedule; task at position 2 observed index 3, which lies in `[1, index]`. -/
theorem C2_indices_witness :
    New false 8 = some (samplePool 8) ∧
    execTrace (samplePool 8) run5Trace = some pool5 ∧
    (1 : Int) ≤ 3 ∧ (3 : Int) ≤ pool5.index := by
  have h := C2_indices_distinct_start_order false 8 (samplePool 8) pool5 rfl
    ⟨run5Trace, rfl⟩
  exact ⟨rfl, rfl, h.1 2 (Phase.bodyRunning 3) 3 rfl rfl⟩

/-- C3: the claim says a faulting body's panic is caught and discarded by
the per-task guard and is not observable.  The guard in the source is
`defer recover()`, which does not stop a panic: recover stops a panicking
sequence only when executed inside a deferred function, and here it is the
deferred call itself, so it returns nil.  Evaluating the code at the
failing input (a capacity-2 pool whose one admitted task panics): the
submission did return `true` and the deferred cleanup still runs — the
slot is freed, `running` decremented, `worked` incremented — but once the
panicking goroutine's deferred chain completes the panic resumes and
terminates the whole process: from the crashed state not even a new
submission or `Exit` can execute, while after the identical run with a
normally returning body the pool keeps working. -/
theorem C3_unrecovered_panic_terminates_process :
    labelRet Label.submitAccepted = some true ∧
    (newExec false 2 faultTrace).map
        (fun p => (Worked p, Running p, p.work, crashed p)) = some (1, 0, 0, true) ∧
    newExec false 2 (faultTrace ++ [Label.submitAccepted]) = none ∧
    newExec false 2 (faultTrace ++ [Label.exitCall]) = none ∧
    (newExec false 2 (okTrace ++ [Label.submitAccepted])).map
        (fun p => (Worked p, crashed p)) = some (1, false) :=
  ⟨rfl, rfl, rfl, rfl, rfl⟩

/-- C4: a submission that observes the fired external cancellation source
(the `<-p.ctx.Done()` branch) triggers the internal closed signal via the
once-guarded `closeDone` (idempotent under repeated firing) and returns
`false`, reserving no slot, dispatching no task, and leaving the
`running`/`worked`/`index` counters and the task list unchanged. -/
theorem C4_cancellation_observed (p : Pool) (hcr : crashed p = false)
    (h : p.ctxCancelled = true) :
    stepFn p Label.submitCancelled = some (closeDone p) ∧
    labelRet Label.submitCancelled = some false ∧
    (closeDone p).doneClosed = true ∧
    closeDone (closeDone p) = closeDone p ∧
    (closeDone p).work = p.work ∧ (closeDone p).running = p.running ∧
    (closeDone p).worked = p.worked ∧ (closeDone p).index = p.index ∧
    (closeDone p).tasks = p.tasks := by
  refine ⟨?_, rfl, rfl, rfl, rfl, rfl, rfl, rfl, rfl⟩
  unfold stepFn
  rw [if_neg (by simp [hcr])]
  simp [liveStep, h]

/-- C4 witness: the theorem applied to a pool whose context has fired. -/
theorem C4_cancellation_observed_witness :
    poolCancelled.ctxCancelled = true ∧
    stepFn poolCancelled Label.submitCancelled = some (closeDone poolCancelled) ∧
    labelRet Label.submitCancelled = some false ∧
    closeDone (closeDone poolCancelled) = closeDone poolCancelled := by
  have h := C4_cancellation_observed poolCancelled rfl rfl
  exact ⟨rfl, h.1, h.2.1, h.2.2.2.1⟩

/-- C5: `Exit` (that is, `p.closeDone()`, a `sync.OnceFunc`-guarded close of
`done`) always succeeds, closes the signal, and is idempotent: a second
`Exit` is a no-op, and on an already-closed pool `Exit` changes nothing;
it touches no counter and no task. -/
theorem C5_exit_idempotent (p : Pool) :
    (crashed p = false → stepFn p Label.exitCall = some (Exit p)) ∧
    (Exit p).doneClosed = true ∧
    Exit (Exit p) = Exit p ∧
    (p.doneClosed = true → Exit p = p) ∧
    (Exit p).ctxCancelled = p.ctxCancelled ∧ (Exit p).work = p.work ∧
    (Exit p).running = p.running ∧ (Exit p).worked = p.worked ∧
    (Exit p).index = p.index ∧ (Exit p).tasks = p.tasks := by
  refine ⟨?_, rfl, rfl, ?_, rfl, rfl, rfl, rfl, rfl, rfl⟩
  · intro hcr
    unfold stepFn
    rw [if_neg (by simp [hcr])]
    rfl
  · intro hd
    cases p
    simp only [Exit, closeDone] at hd ⊢
    simp_all

/-- C5 witness: the theorem applied to an already-closed pool. -/
theorem C5_exit_idempotent_witness :
    stepFn poolClosed Label.exitCall = some (Exit poolClosed) ∧
    Exit (Exit poolClosed) = Exit poolClosed ∧ Exit poolClosed = poolClosed := by
  have h := C5_exit_idempotent poolClosed
  exact ⟨h.1 rfl, h.2.2.1, h.2.2.2.1 rfl⟩

/-- C7 counterexample: the claim's own scenario — N sequentially accepted
tasks including a deliberately faulting one, all finishing — cannot be
executed: the schedule `run7Trace` is infeasible, because once the faulting
first task completes its deferred cleanup the unrecovered panic terminates
the process, and the next submission is refused even though a slot is free
and neither cancellation nor closure ever fired. -/
theorem C7_counterexample_faulting_run_infeasible :
    newExec false 2 run7Trace = none ∧
    (newExec false 2 faultTrace).map
        (fun p => (p.work, p.size, p.ctxCancelled, p.doneClosed))
      = some (0, 2, false, false) ∧
    newExec false 2 (faultTrace ++ [Label.submitAccepted, Label.startBody 1]) = none :=
  ⟨rfl, rfl, rfl⟩

/-- C7 (amended): `worked` never decreases and changes by at most one per
step; the `p.worked.Add(1)` action of a finishing task — faulting or not —
increments it by exactly one; at every reachable state `worked` equals the
number of tasks whose cleanup finished, and when every accepted task has
finished with a normally returning body, `worked = N` (the number of
accepted submissions) and `running = 0`.  A run containing a faulting task
ends when that task's cleanup completes, so the all-finished count is
guaranteed observable only for normally completing tasks. -/
theorem C7_worked_monotone_and_clean_total :
    (∀ p q (l : Label), stepFn p l = some q →
      Worked p ≤ Worked q ∧ Worked q ≤ Worked p + 1) ∧
    (∀ p q (tid : Nat), stepFn p (Label.incWorked tid) = some q →
      Worked q = Worked p + 1) ∧
    (∀ c n p0 p, New c n = some p0 → Reachable p0 p →
      Worked p = (countPhase isFinished p : Int) ∧
      ((∀ ph ∈ p.tasks, isFinishedOk ph = true) →
        Worked p = (p.tasks.length : Int) ∧ Running p = 0)) := by
  refine ⟨?_, ?_, ?_⟩
  · intro p q l hs
    rcases (step_cases hs).2 with ⟨_, rfl⟩ | ⟨_, _, rfl⟩ | ⟨_, _, rfl⟩ | ⟨_, _, rfl⟩ |
      ⟨_, rfl⟩ | ⟨tid, _, _, rfl⟩ | ⟨tid, fl, ix, _, _, rfl⟩ | ⟨tid, ix, fl, _, _, rfl⟩ |
      ⟨tid, ix, fl, _, _, rfl⟩
    · exact ⟨le_rfl, le_add_of_nonneg_right zero_le_one⟩
    · exact ⟨le_rfl, le_add_of_nonneg_right zero_le_one⟩
    · exact ⟨le_rfl, le_add_of_nonneg_right zero_le_one⟩
    · exact ⟨le_rfl, le_add_of_nonneg_right zero_le_one⟩
    · exact ⟨le_rfl, le_add_of_nonneg_right zero_le_one⟩
    · exact ⟨le_rfl, le_add_of_nonneg_right zero_le_one⟩
    · exact ⟨le_rfl, le_add_of_nonneg_right zero_le_one⟩
    · exact ⟨le_rfl, le_add_of_nonneg_right zero_le_one⟩
    · exact ⟨le_add_of_nonneg_right zero_le_one, le_rfl⟩
  · intro p q tid hs
    rcases (step_cases hs).2 with ⟨heq, _⟩ | ⟨heq, _, _⟩ | ⟨heq, _, _⟩ | ⟨heq, _, _⟩ |
      ⟨heq, _⟩ | ⟨t2, heq, _, _⟩ | ⟨t2, fl, ix, heq, _, _⟩ | ⟨t2, ix, fl, heq, _, _⟩ |
      ⟨t2, ix, fl, heq, _, rfl⟩
    · exact absurd heq (by simp)
    · exact absurd heq (by simp)
    · exact absurd heq (by simp)
    · exact absurd heq (by simp)
    · exact absurd heq (by simp)
    · exact absurd heq (by simp)
    · exact absurd heq (by simp)
    · exact absurd heq (by simp)
    · rfl
  · intro c n p0 p h0 hr
    have hInv := Inv_reachable (Inv_new h0) hr
    have hF := hInv.worked_eq
    have hR := hInv.running_eq
    refine ⟨hF, ?_⟩
    intro hallOk
    have hall : ∀ ph ∈ p.tasks, isFinished ph = true := by
      intro ph hmem
      have := hallOk ph hmem
      cases ph with
      | finished i b => cases b <;> simp_all [isFinished, isFinishedOk]
      | spawned => simp_all [isFinishedOk]
      | bodyRunning i => simp_all [isFinishedOk]
      | slotReleased i b => simp_all [isFinishedOk]
      | runningDec i b => simp_all [isFinishedOk]
    have hlen : p.tasks.countP isFinished = p.tasks.length :=
      (List.countP_eq_length).mpr hall
    have hzero : p.tasks.countP countsRunning = 0 := by
      rw [List.countP_eq_zero]
      intro ph hmem
      have := hall ph hmem
      cases ph <;> simp_all [isFinished, countsRunning]
    constructor
    · show p.worked = (p.tasks.length : Int)
      simp only [countPhase] at hF
      omega
    · show p.running = 0
      simp only [countPhase] at hR
      omega

/-- C7 witness: three accepted tasks with normally returning bodies all
finish: `worked = 3` and `running = 0`. -/
theorem C7_worked_witness :
    New false 2 = some (samplePool 2) ∧
    execTrace (samplePool 2) run7CleanTrace = some pool7 ∧
    Worked pool7 = 3 ∧ Running pool7 = 0 := by
  have h := C7_worked_monotone_and_clean_total.2.2 false 2 (samplePool 2) pool7 rfl
    ⟨run7CleanTrace, rfl⟩
  have h2 := h.2 (by decide)
  exact ⟨rfl, rfl, h2.1, h2.2⟩

/-- C8: a pool constructed with capacity 0 never accepts: its accepted
branch is never enabled at any reachable state, every step a submission can
take returns `false`, and when neither cancellation nor closure has fired no
submission branch is enabled at all — the call blocks. -/
theorem C8_capacity_zero_never_accepts (c : Bool) (p0 p : Pool)
    (h0 : New c 0 = some p0) (hr : Reachable p0 p) :
    p.size = 0 ∧
    stepFn p Label.submitAccepted = none ∧
    (∀ (l : Label) (q : Pool), stepFn p l = some q → labelRet l ≠ some true) ∧
    (p.ctxCancelled = false → p.doneClosed = false →
      stepFn p Label.submitCancelled = none ∧ stepFn p Label.submitClosed = none ∧
      stepFn p Label.submitAccepted = none) := by
  have hp0 : p0.size = 0 := by
    simp only [New] at h0
    rw [if_neg (by decide)] at h0
    injection h0 with h0
    rw [← h0]
    rfl
  have hsz : p.size = 0 := by
    rcases hr with ⟨ls, hls⟩
    rw [size_exec ls hls, hp0]
  have hacc : stepFn p Label.submitAccepted = none := by
    unfold stepFn
    cases hcb : crashed p with
    | true => simp
    | false =>
        rw [if_neg (by simp)]
        simp only [liveStep]
        rw [if_neg (by omega)]
  refine ⟨hsz, hacc, ?_, ?_⟩
  · intro l q hstep
    cases l with
    | submitAccepted =>
        rw [hacc] at hstep
        exact absurd hstep (by simp)
    | cancelCtx => simp [labelRet]
    | submitCancelled => simp [labelRet]
    | submitClosed => simp [labelRet]
    | exitCall => simp [labelRet]
    | startBody tid => simp [labelRet]
    | endBody tid b => simp [labelRet]
    | decRunning tid => simp [labelRet]
    | incWorked tid => simp [labelRet]
  · intro hcF hdF
    refine ⟨?_, ?_, hacc⟩
    · unfold stepFn
      cases hcb : crashed p with
      | true => simp
      | false =>
          rw [if_neg (by simp)]
          simp only [liveStep]
          rw [if_neg (by simp [hcF])]
    · unfold stepFn
      cases hcb : crashed p with
      | true => simp
      | false =>
          rw [if_neg (by simp)]
          simp only [liveStep]
          rw [if_neg (by simp [hdF])]

/-- C8 witness: the theorem applied to the freshly constructed capacity-0
pool, where all three submission branches are disabled. -/
theorem C8_capacity_zero_witness :
    New false 0 = some (samplePool 0) ∧
    stepFn (samplePool 0) Label.submitAccepted = none ∧
    stepFn (samplePool 0) Label.submitCancelled = none ∧
    stepFn (samplePool 0) Label.submitClosed = none := by
  have h := C8_capacity_zero_never_accepts false (samplePool 0) (samplePool 0) rfl
    ⟨[], rfl⟩
  have h4 := h.2.2.2 rfl rfl
  exact ⟨rfl, h.2.1, h4.1, h4.2.1⟩

/-- C9: constructing a pool with a negative capacity faults at the
construction call — `make(chan struct{}, size)` panics at run time for
negative `size` — so no pool is returned. -/
theorem C9_negative_capacity_fatal (c : Bool) (n : Int) (h : n < 0) :
    New c n = none := by
  simp only [New]
  rw [if_pos h]

/-- C9 witness: the theorem applied at capacity `-1`. -/
theorem C9_negative_capacity_witness :
    (-1 : Int) < 0 ∧ New false (-1) = none :=
  ⟨by decide, C9_negative_capacity_fatal false (-1) (by decide)⟩

/-- C10: a task body is invoked with `p.ctx`, the context stored at `New`
(whose cancellation status seeds `ctxCancelled`); only the external source
firing (`cancelCtx`) ever changes that status — in particular `Exit` closes
`done` without touching it or the tasks — so a body cannot observe explicit
shutdown through its context argument, as the concrete run shows: after
`Exit` a mid-body task's pool has `doneClosed` set while its context is
still uncancelled. -/
theorem C10_ctx_unaffected_by_shutdown :
    (∀ c n p0, New c n = some p0 → p0.ctxCancelled = c) ∧
    (∀ p q (l : Label), stepFn p l = some q → l ≠ Label.cancelCtx →
      q.ctxCancelled = p.ctxCancelled) ∧
    (∀ p, (Exit p).ctxCancelled = p.ctxCancelled ∧ (Exit p).doneClosed = true ∧
      (Exit p).tasks = p.tasks ∧
      (crashed p = false → stepFn p Label.exitCall = some (Exit p))) ∧
    (newExec false 2 [Label.submitAccepted, Label.startBody 0, Label.exitCall]).map
        (fun p => (p.ctxCancelled, p.doneClosed, p.tasks))
      = some (false, true, [Phase.bodyRunning 1]) := by
  refine ⟨?_, ?_, ?_, rfl⟩
  · intro c n p0 h0
    simp only [New] at h0
    by_cases hn : n < 0
    · rw [if_pos hn] at h0
      exact absurd h0 (by simp)
    · rw [if_neg hn] at h0
      injection h0 with h0
      rw [← h0]
  · intro p q l hs hl
    exact ctx_step hs hl
  · intro p
    refine ⟨rfl, rfl, rfl, ?_⟩
    intro hcr
    unfold stepFn
    rw [if_neg (by simp [hcr])]
    rfl

/-- C10 witness: the theorem applied at a concrete construction and a
concrete `Exit` call on a pool with a mid-body task. -/
theorem C10_ctx_witness :
    New false 2 = some (samplePool 2) ∧ (samplePool 2).ctxCancelled = false ∧
    (Exit poolBody1).ctxCancelled = poolBody1.ctxCancelled ∧
    (Exit poolBody1).doneClosed = true := by
  have h := C10_ctx_unaffected_by_shutdown
  exact ⟨rfl, h.1 false 2 (samplePool 2) rfl, (h.2.2.1 poolBody1).1,
    (h.2.2.1 poolBody1).2.1⟩

end Bee
